import Mathlib

/-!
Verification of the shortfin core runtime (nod-ai/sharktank repository).

This file shallowly embeds the parts of the C++ sources relevant to the
Worker event loop, the device/affinity model and the program-invocation
engine, then proves properties stated in the specification.

Sources embedded:
- shortfin::local::Worker          (src/unnamed/part_001, shortfin/local/worker.cc)
- shortfin::Worker                 (src/libshortfin/src/shortfin/process/worker.cc)
- shortfin::LocalDeviceAddress     (src/sharktank/pyproject.toml, local_device.cc section)
- shortfin::LocalScope             (src/sharktank/pyproject.toml, local_scope.h section)
- shortfin::local::ProgramInvocation (src/shortfin/src/shortfin/local/program.h)

Where a needed implementation file is part of the repository but not in the
source snapshot (DeviceAffinity in local_device.h, program.cc), the
corresponding definition is marked Modelled from the spec.
-/

/-- Abstract error kinds thrown by user-thread entrypoints
(std::logic_error, std::invalid_argument) or propagated as statuses. -/
inductive Err where
  | logicError
  | invalidArgument
  | runtimeFailure
deriving DecidableEq

/-- Decidable equality for Except results, so that concrete runs of the
embedded operations can be checked by evaluation. -/
instance {e a : Type} [DecidableEq e] [DecidableEq a] : DecidableEq (Except e a) :=
  fun x y =>
    match x, y with
    | Except.ok v, Except.ok v' =>
      match decEq v v' with
      | isTrue h => isTrue (by rw [h])
      | isFalse h => isFalse fun hc => h (by injection hc)
    | Except.error v, Except.error v' =>
      match decEq v v' with
      | isTrue h => isTrue (by rw [h])
      | isFalse h => isFalse fun hc => h (by injection hc)
    | Except.ok _, Except.error _ => isFalse fun hc => Except.noConfusion hc
    | Except.error _, Except.ok _ => isFalse fun hc => Except.noConfusion hc

/-- Abstraction of iree_status_t as observed by the worker loop code:
OK, deadline-exceeded, or any other (failing) status. -/
inductive IStatus where
  | ok
  | deadlineExceeded
  | otherError
deriving DecidableEq

/-- The mutex-protected state shared between a Worker thread and foreign
producer threads: the kill flag (kill_), the transact event
(signal_transact_), the pending thunk list (pending_thunks_), plus the
ended event (signal_ended_) and an execution trace recording, in order,
every thunk the worker thread has run.  Thunks are identified by tags. -/
structure WorkerState where
  kill : Bool
  signalTransact : Bool
  pending : List Nat
  executed : List Nat
  ended : Bool
deriving DecidableEq

/-- Worker state as constructed: signal_transact_(false), signal_ended_(false),
kill_ false, no thunks queued or run. -/
def WorkerState.init : WorkerState :=
  { kill := false, signalTransact := false, pending := [], executed := [], ended := false }

/-- Worker configuration options (name, owned_thread) from worker.h. -/
structure WorkerOptions where
  name : String
  owned_thread : Bool
deriving DecidableEq

/-- A shortfin::local::Worker: options, whether thread_ has been created
(Start), whether has_run_ was set (RunOnCurrentThread), and the shared
loop state. -/
structure Worker where
  options : WorkerOptions
  thread : Bool
  has_run : Bool
  st : WorkerState
deriving DecidableEq

/-- shortfin::local::Worker::TransactLoop (src/unnamed/part_001 lines 45-73).
Returns the resulting status, the updated shared state, and whether the
transact wait was re-armed (ScheduleExternalTransactEvent).  A non-OK
signal status is returned unchanged.  Otherwise, under the mutex the
transact event is reset and the kill flag checked: if killed, the cycle
returns OK without executing anything and without re-arming; otherwise the
pending list is swapped out and its thunks execute in list (FIFO) order,
which the model records by appending them to the executed trace. -/
def Worker.TransactLoop (signal_status : IStatus) (s : WorkerState) :
    IStatus × WorkerState × Bool :=
  if signal_status ≠ IStatus.ok then (signal_status, s, false)
  else
    let s1 : WorkerState := { s with signalTransact := false }
    if s1.kill then (IStatus.ok, s1, false)
    else
      (IStatus.ok,
       { s1 with pending := [], executed := s1.executed ++ s1.pending },
       true)

/-- shortfin::local::Worker::CallThreadsafe (src/unnamed/part_001 lines
179-185): under the mutex, append the thunk to pending_thunks_, then set
the transact event. -/
def Worker.CallThreadsafe (s : WorkerState) (t : Nat) : WorkerState :=
  { s with pending := s.pending ++ [t], signalTransact := true }

/-- shortfin::local::Worker::Kill (src/unnamed/part_001 lines 132-141):
throws std::logic_error when owned_thread is configured and the thread was
never started; otherwise sets kill_ under the mutex and sets the transact
event. -/
def Worker.Kill (w : Worker) : Except Err Worker :=
  if w.options.owned_thread && !w.thread then Except.error Err.logicError
  else Except.ok { w with st := { w.st with kill := true, signalTransact := true } }

/-- The body of Kill once its precondition passed, acting on the shared
state only (used by the event semantics below, where Kill may be issued by
any producer thread). -/
def Worker.KillState (s : WorkerState) : WorkerState :=
  { s with kill := true, signalTransact := true }

/-- Events issued against a Worker's shared state: a producer thread
enqueueing a thunk, the worker thread running one transact cycle, or a
kill request. -/
inductive WEvent where
  | call (t : Nat)
  | transact
  | kill
deriving DecidableEq

/-- One event applied to the shared state. -/
def stepState (s : WorkerState) : WEvent → WorkerState
  | WEvent.call t => Worker.CallThreadsafe s t
  | WEvent.transact => (Worker.TransactLoop IStatus.ok s).2.1
  | WEvent.kill => Worker.KillState s

/-- A sequence of events applied in order. -/
def runState (s : WorkerState) (es : List WEvent) : WorkerState :=
  es.foldl stepState s

/-- The thunk tags enqueued by a list of events, in order. -/
def callTags (es : List WEvent) : List Nat :=
  es.filterMap fun e =>
    match e with
    | WEvent.call t => some t
    | _ => none

/-- Thunks that have been executed followed by thunks still queued. -/
def combined (s : WorkerState) : List Nat :=
  s.executed ++ s.pending

theorem callTags_append (es1 es2 : List WEvent) :
    callTags (es1 ++ es2) = callTags es1 ++ callTags es2 := by
  simp [callTags]

theorem callTags_cons_call (t : Nat) (es : List WEvent) :
    callTags (WEvent.call t :: es) = t :: callTags es := by
  simp [callTags]

theorem combined_step (s : WorkerState) (e : WEvent) :
    combined (stepState s e) = combined s ++ callTags [e] := by
  cases e with
  | call t => simp [stepState, combined, Worker.CallThreadsafe, callTags]
  | transact =>
    by_cases hk : s.kill <;>
      simp [stepState, combined, Worker.TransactLoop, hk, callTags]
  | kill => simp [stepState, combined, Worker.KillState, callTags]

theorem combined_run (es : List WEvent) :
    ∀ s : WorkerState, combined (runState s es) = combined s ++ callTags es := by
  induction es with
  | nil => intro s; simp [runState, callTags]
  | cons e es ih =>
    intro s
    have h1 : runState s (e :: es) = runState (stepState s e) es := rfl
    rw [h1, ih (stepState s e), combined_step]
    have h2 : callTags (e :: es) = callTags [e] ++ callTags es := by
      have := callTags_append [e] es
      simpa using this
    rw [h2, List.append_assoc]

theorem sublist_pair_of_append_nodup {a b : Nat} {l1 l2 : List Nat}
    (hnd : (l1 ++ l2).Nodup) (hs : List.Sublist [a, b] (l1 ++ l2))
    (hb : b ∈ l1) : List.Sublist [a, b] l1 := by
  obtain ⟨x, y, hxy, hx, hy⟩ := List.sublist_append_iff.mp hs
  have hdisj : l1.Disjoint l2 := (List.nodup_append.mp hnd).2.2
  have hbl2 : b ∉ l2 := fun hmem => hdisj hb hmem
  rcases x with _ | ⟨x0, x⟩
  · exfalso
    apply hbl2
    apply hy.subset
    simp only [List.nil_append] at hxy
    rw [← hxy]
    simp
  · rcases x with _ | ⟨x1, x⟩
    · exfalso
      apply hbl2
      apply hy.subset
      simp only [List.cons_append, List.nil_append] at hxy
      have h2 : [b] = y := by
        injection hxy
      rw [← h2]
      simp
    · rcases x with _ | ⟨x2, x⟩
      · simp only [List.cons_append, List.nil_append] at hxy
        have h1 : a = x0 := by injection hxy
        have h2 : b = x1 := by
          injection hxy with hh1 hh2
          injection hh2
        rw [h1, h2]
        exact hx
      · exfalso
        have hlen := congrArg List.length hxy
        simp [List.length_append] at hlen

/-- C1: FIFO thunking per producer thread.  If a producer calls
CallThreadsafe(f1) and later CallThreadsafe(f2) (with arbitrary other
events, including other producers' calls, kill requests and transact
cycles, interleaved anywhere), and f2 has started executing on the worker
thread, then f1 started executing before it: f1 precedes f2 in the
executed trace.  CallThreadsafe appends under the mutex and each
TransactLoop cycle swaps the pending list out and runs it in list order. -/
theorem worker_fifo_per_producer (es1 es2 es3 : List WEvent) (f1 f2 : Nat)
    (hnd : (callTags (es1 ++ WEvent.call f1 :: (es2 ++ WEvent.call f2 :: es3))).Nodup)
    (hmem : f2 ∈ (runState WorkerState.init
        (es1 ++ WEvent.call f1 :: (es2 ++ WEvent.call f2 :: es3))).executed) :
    List.Sublist [f1, f2] (runState WorkerState.init
        (es1 ++ WEvent.call f1 :: (es2 ++ WEvent.call f2 :: es3))).executed := by
  set es := es1 ++ WEvent.call f1 :: (es2 ++ WEvent.call f2 :: es3) with hes
  have hcomb : combined (runState WorkerState.init es) = callTags es := by
    rw [combined_run es WorkerState.init]
    simp [combined, WorkerState.init]
  have htags : callTags es =
      callTags es1 ++ f1 :: (callTags es2 ++ f2 :: callTags es3) := by
    rw [hes, callTags_append, callTags_cons_call, callTags_append, callTags_cons_call]
  have hsub : List.Sublist [f1, f2] (callTags es) := by
    rw [htags]
    apply List.Sublist.trans _ (List.sublist_append_right (callTags es1) _)
    apply List.Sublist.cons₂
    apply List.Sublist.trans _ (List.sublist_append_right (callTags es2) _)
    exact List.singleton_sublist.mpr (by simp)
  have hnd' : (combined (runState WorkerState.init es)).Nodup := by
    rw [hcomb]; exact hnd
  have hsub' : List.Sublist [f1, f2] (combined (runState WorkerState.init es)) := by
    rw [hcomb]; exact hsub
  exact sublist_pair_of_append_nodup hnd' hsub' hmem

/-- Sample event sequence for the FIFO theorem: thunk 0 enqueued, then
thunk 1, then one transact cycle. -/
def sampleFifoEvents : List WEvent :=
  [WEvent.call 0, WEvent.call 1, WEvent.transact]

theorem worker_fifo_per_producer_witness :
    List.Sublist [0, 1] (runState WorkerState.init
        ([] ++ WEvent.call 0 :: ([] ++ WEvent.call 1 :: [WEvent.transact]))).executed :=
  worker_fifo_per_producer [] [] [WEvent.transact] 0 1 (by decide) (by decide)

theorem run_preserves_kill (es : List WEvent) :
    ∀ s : WorkerState, s.kill = true →
      (runState s es).executed = s.executed ∧ (runState s es).kill = true := by
  induction es with
  | nil => intro s hk; exact ⟨rfl, hk⟩
  | cons e es ih =>
    intro s hk
    have hstep : (stepState s e).kill = true ∧ (stepState s e).executed = s.executed := by
      cases e with
      | call t => simp [stepState, Worker.CallThreadsafe, hk]
      | transact => simp [stepState, Worker.TransactLoop, hk]
      | kill => simp [stepState, Worker.KillState]
    have h1 : runState s (e :: es) = runState (stepState s e) es := rfl
    rw [h1]
    obtain ⟨hex, hkl⟩ := ih (stepState s e) hstep.1
    exact ⟨hex.trans hstep.2, hkl⟩

/-- C2: kill discards pending work.  Once kill_ is set, a TransactLoop
cycle that observes it resets the transact event, executes no pending
thunk, leaves the pending list untouched, returns OK and does not re-arm
the transact wait; and under any further events (transact cycles,
producer calls, kills) no thunk is ever executed again, so every thunk
pending at the moment kill was observed is discarded.  (In-flight async
work registered with the sync loop is outside this state and may still
drain; the model only covers thunk processing.) -/
theorem worker_kill_discards (s : WorkerState) (hk : s.kill = true) (es : List WEvent) :
    (Worker.TransactLoop IStatus.ok s).2.2 = false
  ∧ (Worker.TransactLoop IStatus.ok s).2.1.executed = s.executed
  ∧ (Worker.TransactLoop IStatus.ok s).2.1.pending = s.pending
  ∧ (Worker.TransactLoop IStatus.ok s).2.1.signalTransact = false
  ∧ (Worker.TransactLoop IStatus.ok s).1 = IStatus.ok
  ∧ (runState s es).executed = s.executed
  ∧ (runState s es).kill = true := by
  obtain ⟨hex, hkl⟩ := run_preserves_kill es s hk
  refine ⟨?_, ?_, ?_, ?_, ?_, hex, hkl⟩ <;> simp [Worker.TransactLoop, hk]

/-- Sample state with the kill flag set and thunks 5, 6 still pending. -/
def sampleKilledState : WorkerState :=
  { kill := true, signalTransact := true, pending := [5, 6], executed := [1], ended := false }

/-- Sample events after kill was observed: a transact cycle, a late
producer call, a second transact cycle. -/
def sampleAfterKillEvents : List WEvent :=
  [WEvent.transact, WEvent.call 7, WEvent.transact]

theorem worker_kill_discards_witness :
    (Worker.TransactLoop IStatus.ok sampleKilledState).2.2 = false
  ∧ (Worker.TransactLoop IStatus.ok sampleKilledState).2.1.executed = sampleKilledState.executed
  ∧ (Worker.TransactLoop IStatus.ok sampleKilledState).2.1.pending = sampleKilledState.pending
  ∧ (Worker.TransactLoop IStatus.ok sampleKilledState).2.1.signalTransact = false
  ∧ (Worker.TransactLoop IStatus.ok sampleKilledState).1 = IStatus.ok
  ∧ (runState sampleKilledState sampleAfterKillEvents).executed = sampleKilledState.executed
  ∧ (runState sampleKilledState sampleAfterKillEvents).kill = true :=
  worker_kill_discards sampleKilledState (by decide) sampleAfterKillEvents

/-- shortfin::Worker::TransactLoop, the older worker in
src/libshortfin/src/shortfin/process/worker.cc lines 37-68.  A non-OK
signal status is returned unchanged.  Otherwise it logs an info line,
then under the mutex resets the transact event and checks kill_: if
killed it returns OK leaving the thunk lists alone; otherwise it swaps
pending_thunks_ out and executes the thunks in list order.  Unlike the
newer worker it never re-arms the transact wait itself (its Run loop
re-registers the wait source on every cycle); the third component is the
list of log lines emitted. -/
def OldWorker.TransactLoop (signal_status : IStatus) (s : WorkerState) :
    IStatus × WorkerState × List String :=
  if signal_status ≠ IStatus.ok then (signal_status, s, [])
  else
    let logs := ["Transact loop!"]
    let s1 : WorkerState := { s with signalTransact := false }
    if s1.kill then (IStatus.ok, s1, logs)
    else
      (IStatus.ok,
       { s1 with pending := [], executed := s1.executed ++ s1.pending },
       logs)

/-- C10: the two TransactLoop implementations are equivalent with respect
to thunk processing.  For any signal status and any shared state (same
pending list and kill flag), the newer shortfin::local::Worker loop and
the older shortfin::Worker loop return the same status and the same
resulting state; on an OK signal both reset the transact event and
return OK, execute nothing when the kill flag is set, and otherwise swap
the pending list out and execute exactly its thunks in the same FIFO
order. -/
theorem transact_loops_equivalent (signal_status : IStatus) (s : WorkerState) :
    (Worker.TransactLoop signal_status s).1 = (OldWorker.TransactLoop signal_status s).1
  ∧ (Worker.TransactLoop signal_status s).2.1 = (OldWorker.TransactLoop signal_status s).2.1
  ∧ (Worker.TransactLoop IStatus.ok s).1 = IStatus.ok
  ∧ (Worker.TransactLoop IStatus.ok s).2.1.signalTransact = false
  ∧ (Worker.TransactLoop IStatus.ok s).2.1.executed
      = (if s.kill then s.executed else s.executed ++ s.pending)
  ∧ (Worker.TransactLoop IStatus.ok s).2.1.pending
      = (if s.kill then s.pending else []) := by
  by_cases hk : s.kill <;>
    cases signal_status <;>
      simp [Worker.TransactLoop, OldWorker.TransactLoop, hk]

/-- shortfin::local::Worker::Start (src/unnamed/part_001 lines 111-130):
throws std::logic_error when owned_thread=false or when thread_ already
exists; otherwise creates the thread suspended and then resumes it.  The
result records the updated worker and the thread operations performed, in
order. -/
inductive ThreadOp where
  | createSuspended
  | resume
deriving DecidableEq

def Worker.Start (w : Worker) : Except Err (Worker × List ThreadOp) :=
  if !w.options.owned_thread then Except.error Err.logicError
  else if w.thread then Except.error Err.logicError
  else Except.ok ({ w with thread := true }, [ThreadOp.createSuspended, ThreadOp.resume])

/-- shortfin::local::Worker::RunOnThread (src/unnamed/part_001 lines
84-109): runs the loop, which keeps draining and re-arming until the kill
flag is observed, then signals the ended event.  Modelled with the event
list as fuel: the loop state advances over the events; the ended event is
set exactly when the loop has exited, which requires the kill flag. -/
def Worker.RunOnThread (s : WorkerState) (es : List WEvent) : WorkerState :=
  let s1 := runState s es
  if s1.kill then { s1 with ended := true } else s1

/-- shortfin::local::Worker::RunOnCurrentThread (src/unnamed/part_001
lines 164-177): throws std::logic_error when the worker was configured
for owned_thread, or when has_run_ is already set; otherwise marks
has_run_ and runs the loop on the calling thread until killed. -/
def Worker.RunOnCurrentThread (w : Worker) (es : List WEvent) : Except Err Worker :=
  if w.options.owned_thread then Except.error Err.logicError
  else if w.has_run then Except.error Err.logicError
  else Except.ok { w with has_run := true, st := Worker.RunOnThread w.st es }

/-- C8: Start and RunOnCurrentThread preconditions.  Start fails with
LogicError exactly when the worker is not owned_thread or was already
started, and on success creates the worker thread suspended and then
resumes it (in that order), marking the worker started.
RunOnCurrentThread fails with LogicError exactly when the worker is
owned_thread or has already run, and on success marks has_run_ and runs
the loop on the caller's thread (the loop state advances until a kill is
observed, at which point the run ends). -/
theorem start_run_on_current_thread_preconditions (w : Worker) (es : List WEvent) :
    (Worker.Start w = Except.error Err.logicError
      ↔ (w.options.owned_thread = false ∨ w.thread = true))
  ∧ (∀ w' ops, Worker.Start w = Except.ok (w', ops) →
      ops = [ThreadOp.createSuspended, ThreadOp.resume] ∧ w'.thread = true)
  ∧ (Worker.RunOnCurrentThread w es = Except.error Err.logicError
      ↔ (w.options.owned_thread = true ∨ w.has_run = true))
  ∧ (∀ w', Worker.RunOnCurrentThread w es = Except.ok w' →
      w'.has_run = true ∧ w'.st = Worker.RunOnThread w.st es) := by
  refine ⟨?_, ?_, ?_, ?_⟩
  · by_cases ho : w.options.owned_thread <;> by_cases ht : w.thread <;>
      simp [Worker.Start, ho, ht]
  · intro w' ops h
    by_cases ho : w.options.owned_thread <;> by_cases ht : w.thread <;>
      simp [Worker.Start, ho, ht] at h
    obtain ⟨h1, h2⟩ := h
    constructor
    · exact h2.symm
    · rw [← h1]
  · by_cases ho : w.options.owned_thread <;> by_cases hr : w.has_run <;>
      simp [Worker.RunOnCurrentThread, ho, hr]
  · intro w' h
    by_cases ho : w.options.owned_thread <;> by_cases hr : w.has_run <;>
      simp [Worker.RunOnCurrentThread, ho, hr] at h
    rw [← h]
    constructor <;> rfl

/-- Sample worker: owned_thread, not yet started, never run. -/
def sampleOwnedWorker : Worker :=
  { options := { name := "w0", owned_thread := true },
    thread := false, has_run := false, st := WorkerState.init }

/-- Sample worker: caller-thread mode (owned_thread=false), never run. -/
def sampleUnownedWorker : Worker :=
  { options := { name := "w1", owned_thread := false },
    thread := false, has_run := false, st := WorkerState.init }

theorem start_run_on_current_thread_preconditions_witness :
    (Worker.Start sampleOwnedWorker = Except.error Err.logicError
      ↔ (sampleOwnedWorker.options.owned_thread = false ∨ sampleOwnedWorker.thread = true))
  ∧ ({ sampleOwnedWorker with thread := true }.thread = true
      ∧ [ThreadOp.createSuspended, ThreadOp.resume]
          = [ThreadOp.createSuspended, ThreadOp.resume]) := by
  refine ⟨(start_run_on_current_thread_preconditions sampleOwnedWorker []).1, ?_⟩
  have h := (start_run_on_current_thread_preconditions sampleOwnedWorker []).2.1
    ({ sampleOwnedWorker with thread := true }) [ThreadOp.createSuspended, ThreadOp.resume]
    (by rfl)
  exact ⟨h.2, h.1⟩

/-- C6 counterexample: the claim says Kill() on a never-started Worker
fails with LogicError regardless of owned_thread, but the code only
throws when owned_thread && !thread_.  For an owned_thread=false Worker
that was never started (RunOnCurrentThread not yet called), Kill()
succeeds: it does not raise LogicError. -/
theorem kill_unowned_unstarted_counterexample :
    Worker.Kill sampleUnownedWorker ≠ Except.error Err.logicError := by
  decide

/-- C6 amended: Kill() fails with LogicError exactly when the Worker was
configured with owned_thread=true and has not been started; in every
other case (started, or owned_thread=false even before
RunOnCurrentThread) it succeeds, setting the kill flag under the mutex
and signaling the transact event. -/
theorem kill_precondition (w : Worker) :
    (Worker.Kill w = Except.error Err.logicError
      ↔ (w.options.owned_thread = true ∧ w.thread = false))
  ∧ (Worker.Kill w
        = Except.ok { w with st := { w.st with kill := true, signalTransact := true } }
      ↔ ¬(w.options.owned_thread = true ∧ w.thread = false)) := by
  by_cases ho : w.options.owned_thread <;> by_cases ht : w.thread <;>
    simp [Worker.Kill, ho, ht]

/-- The 5000 ms slice passed to each ended-event wait in
Worker::WaitForShutdown (iree_make_timeout_ms(5000)). -/
def shutdownPollTimeoutMs : Nat := 5000

/-- The retry loop of Worker::WaitForShutdown (src/unnamed/part_001 lines
151-161), abstracted over the sequence of statuses the successive
5-second waits on signal_ended_ return.  OK breaks out of the loop;
deadline-exceeded logs a warning and retries; any other status is
thrown.  The result is Except.ok (some n) when the loop returned after n
warnings, Except.ok none when every supplied wait timed out and the loop
is still polling, and Except.error on a thrown status. -/
def shutdownWait : List IStatus → Except Err (Option Nat)
  | [] => Except.ok none
  | IStatus.ok :: _ => Except.ok (some 0)
  | IStatus.otherError :: _ => Except.error Err.runtimeFailure
  | IStatus.deadlineExceeded :: rest =>
    match shutdownWait rest with
    | Except.ok (some n) => Except.ok (some (n + 1))
    | r => r

/-- shortfin::local::Worker::WaitForShutdown (src/unnamed/part_001 lines
143-162): throws std::logic_error when owned_thread=false, or when the
worker was never started; otherwise runs the retry loop above. -/
def Worker.WaitForShutdown (w : Worker) (waits : List IStatus) : Except Err (Option Nat) :=
  if !w.options.owned_thread then Except.error Err.logicError
  else if !w.thread then Except.error Err.logicError
  else shutdownWait waits

theorem shutdownWait_returns (n : Nat) (rest : List IStatus) :
    shutdownWait (List.replicate n IStatus.deadlineExceeded ++ IStatus.ok :: rest)
      = Except.ok (some n) := by
  induction n with
  | zero => simp [shutdownWait]
  | succ n ih => simp [List.replicate_succ, shutdownWait, ih]

theorem shutdownWait_throws (n : Nat) (rest : List IStatus) :
    shutdownWait (List.replicate n IStatus.deadlineExceeded ++ IStatus.otherError :: rest)
      = Except.error Err.runtimeFailure := by
  induction n with
  | zero => simp [shutdownWait]
  | succ n ih => simp [List.replicate_succ, shutdownWait, ih]

/-- C7: WaitForShutdown fails with LogicError when owned_thread=false or
when the Worker was never started.  Otherwise it waits in slices that
time out at 5000 ms: it retries unconditionally on every
deadline-exceeded timeout, logging one warning each (the returned count),
and returns exactly when the ended event is observed; a wait failing with
any non-deadline status is thrown. -/
theorem wait_for_shutdown_behaviour :
    (∀ (w : Worker) (waits : List IStatus), w.options.owned_thread = false →
        Worker.WaitForShutdown w waits = Except.error Err.logicError)
  ∧ (∀ (w : Worker) (waits : List IStatus), w.thread = false →
        Worker.WaitForShutdown w waits = Except.error Err.logicError)
  ∧ (∀ (w : Worker) (n : Nat) (rest : List IStatus),
        w.options.owned_thread = true → w.thread = true →
        Worker.WaitForShutdown w
            (List.replicate n IStatus.deadlineExceeded ++ IStatus.ok :: rest)
          = Except.ok (some n))
  ∧ (∀ (w : Worker) (n : Nat) (rest : List IStatus),
        w.options.owned_thread = true → w.thread = true →
        Worker.WaitForShutdown w
            (List.replicate n IStatus.deadlineExceeded ++ IStatus.otherError :: rest)
          = Except.error Err.runtimeFailure)
  ∧ shutdownPollTimeoutMs = 5000 := by
  refine ⟨?_, ?_, ?_, ?_, rfl⟩
  · intro w waits ho
    simp [Worker.WaitForShutdown, ho]
  · intro w waits ht
    by_cases ho : w.options.owned_thread <;>
      simp [Worker.WaitForShutdown, ho, ht]
  · intro w n rest ho ht
    simp [Worker.WaitForShutdown, ho, ht, shutdownWait_returns]
  · intro w n rest ho ht
    simp [Worker.WaitForShutdown, ho, ht, shutdownWait_throws]

/-- Sample worker that was started: owned thread exists. -/
def sampleStartedWorker : Worker :=
  { options := { name := "w2", owned_thread := true },
    thread := true, has_run := false, st := WorkerState.init }

theorem wait_for_shutdown_behaviour_witness :
    Worker.WaitForShutdown sampleUnownedWorker [] = Except.error Err.logicError
  ∧ Worker.WaitForShutdown sampleOwnedWorker [] = Except.error Err.logicError
  ∧ Worker.WaitForShutdown sampleStartedWorker
      (List.replicate 2 IStatus.deadlineExceeded ++ IStatus.ok :: [])
      = Except.ok (some 2)
  ∧ Worker.WaitForShutdown sampleStartedWorker
      (List.replicate 1 IStatus.deadlineExceeded ++ IStatus.otherError :: [])
      = Except.error Err.runtimeFailure :=
  ⟨wait_for_shutdown_behaviour.1 sampleUnownedWorker [] rfl,
   wait_for_shutdown_behaviour.2.1 sampleOwnedWorker [] rfl,
   wait_for_shutdown_behaviour.2.2.1 sampleStartedWorker 2 [] rfl rfl,
   wait_for_shutdown_behaviour.2.2.2.1 sampleStartedWorker 1 [] rfl rfl⟩

/-- fmt::join of a vector of iree_host_size_t values with separator ",":
the items' decimal renderings with a comma between consecutive items. -/
def fmtJoin : List Nat → String
  | [] => ""
  | [t] => toString t
  | t :: rest => toString t ++ "," ++ fmtJoin rest

/-- shortfin::LocalDeviceAddress (local_device.h data; section of
src/sharktank/pyproject.toml).  device_name is computed at construction. -/
structure LocalDeviceAddress where
  system_device_class : String
  logical_device_class : String
  hal_driver_prefix : String
  instance_ordinal : Nat
  queue_ordinal : Nat
  instance_topology_address : List Nat
  device_name : String
deriving DecidableEq

/-- The LocalDeviceAddress constructor (src/sharktank/pyproject.toml,
local_device.cc section, lines 43-57): stores its arguments and computes
device_name = fmt::format of system_device_class, instance_ordinal and
queue_ordinal joined by colons, then an at sign, then fmt::join of the
topology indices with commas. -/
def LocalDeviceAddress.make ( system_device_class logical_device_class hal_driver_prefix : String)
    (instance_ordinal queue_ordinal : Nat)
    (instance_topology_address : List Nat) : LocalDeviceAddress :=
  { system_device_class := system_device_class,
    logical_device_class := logical_device_class,
    hal_driver_prefix := hal_driver_prefix,
    instance_ordinal := instance_ordinal,
    queue_ordinal := queue_ordinal,
    instance_topology_address := instance_topology_address,
    device_name := system_device_class ++ ":" ++ toString instance_ordinal ++ ":"
      ++ toString queue_ordinal ++ "@" ++ fmtJoin instance_topology_address }

theorem fmtJoin_cons (t0 : Nat) (ts : List Nat) :
    fmtJoin (t0 :: ts)
      = toString t0 ++ ts.foldr (fun t acc => "," ++ toString t ++ acc) "" := by
  induction ts generalizing t0 with
  | nil => simp [fmtJoin]
  | cons t1 ts ih =>
    simp only [fmtJoin, ih t1, List.foldr_cons]
    rw [String.append_assoc, String.append_assoc]

/-- C5: the device-name grammar.  For a device address constructed from
system class s, instance ordinal i, queue ordinal q and topology
(t0, ..., tn), device_name is s, i and q joined by single colons,
followed by an at sign and the topology indices in decimal joined by
single commas, with nothing else interleaved (in particular no
whitespace: every character comes from the components, a colon, the at
sign or a comma). -/
theorem device_name_grammar
    ( system_device_class logical_device_class hal_driver_prefix : String)
    (instance_ordinal queue_ordinal : Nat) (t0 : Nat) (ts : List Nat) :
    (LocalDeviceAddress.make system_device_class logical_device_class hal_driver_prefix
        instance_ordinal queue_ordinal (t0 :: ts)).device_name
      = system_device_class ++ ":" ++ toString instance_ordinal ++ ":"
        ++ toString queue_ordinal ++ "@"
        ++ (toString t0 ++ ts.foldr (fun t acc => "," ++ toString t ++ acc) "") := by
  show system_device_class ++ ":" ++ toString instance_ordinal ++ ":"
      ++ toString queue_ordinal ++ "@" ++ fmtJoin (t0 :: ts) = _
  rw [fmtJoin_cons]

/-- The (system_device_class, instance_ordinal) pair that governs
affinity compatibility. -/
def LocalDeviceAddress.affinityKey (d : LocalDeviceAddress) : String × Nat :=
  (d.system_device_class, d.instance_ordinal)

/-- Modelled from the spec: shortfin::DeviceAffinity (declared in
local_device.h, which is not under src/).  Per the spec's data model it
is an optional device plus a queue bitmask of at most 64 queues; a
default-constructed affinity is empty. -/
structure DeviceAffinity where
  device : Option LocalDeviceAddress
  queue_affinity : Nat
deriving DecidableEq

/-- The empty (default-constructed) affinity. -/
def DeviceAffinity.empty : DeviceAffinity :=
  { device := none, queue_affinity := 0 }

/-- Modelled from the spec: constructing a DeviceAffinity from one device
selects that device and the bit of its queue_ordinal in the queue mask
(the per-queue semaphore-timeline model of the spec). -/
def DeviceAffinity.ofDevice (d : LocalDeviceAddress) : DeviceAffinity :=
  { device := some d, queue_affinity := 2 ^ d.queue_ordinal }

/-- Whether the affinity holds a device. -/
def DeviceAffinity.nonEmpty (a : DeviceAffinity) : Bool :=
  a.device.isSome

/-- The set of (system_class, instance_ordinal) keys of the participating
devices; an affinity holds at most one device, so this is an Option. -/
def DeviceAffinity.keySet (a : DeviceAffinity) : Option (String × Nat) :=
  a.device.map LocalDeviceAddress.affinityKey

/-- Modelled from the spec: the affinity union.  All participating
devices must share the same (system_class, instance_ordinal); the union
empties the affinity iff the devices differ on those keys, and its queue
mask is the bitwise-or of the inputs. -/
def DeviceAffinity.orA (a b : DeviceAffinity) : DeviceAffinity :=
  match a.device, b.device with
  | none, _ => { device := b.device, queue_affinity := a.queue_affinity ||| b.queue_affinity }
  | some d, none => { device := some d, queue_affinity := a.queue_affinity ||| b.queue_affinity }
  | some d1, some d2 =>
    if d1.affinityKey = d2.affinityKey then
      { device := some d2, queue_affinity := a.queue_affinity ||| b.queue_affinity }
    else DeviceAffinity.empty

/-- Modelled from the spec: the throwing OR used by scope-level device
selection, which fails with InvalidArgument if the two contributing
devices have different (system_class, instance_ordinal). -/
def DeviceAffinity.orExcept (a b : DeviceAffinity) : Except Err DeviceAffinity :=
  match a.device, b.device with
  | some d1, some d2 =>
    if d1.affinityKey = d2.affinityKey then Except.ok (a.orA b)
    else Except.error Err.invalidArgument
  | _, _ => Except.ok (a.orA b)

/-- The variadic LocalScope::device helper (src/sharktank/pyproject.toml,
local_scope.h section, lines 163-171): device() is the empty affinity;
device(first, rest...) resolves first via raw_device (the LocalDevice*
overload is the identity) and ORs it onto device(rest...), throwing
std::invalid_argument whenever the accumulated affinity would be
invalid. -/
def LocalScope.device : List LocalDeviceAddress → Except Err DeviceAffinity
  | [] => Except.ok DeviceAffinity.empty
  | d :: rest =>
    match LocalScope.device rest with
    | Except.error e => Except.error e
    | Except.ok acc => acc.orExcept (DeviceAffinity.ofDevice d)

/-- Sample device on (cpu, instance 0), queue 0. -/
def sampleDeviceA : LocalDeviceAddress :=
  { system_device_class := "cpu", logical_device_class := "cpu",
    hal_driver_prefix := "local", instance_ordinal := 0, queue_ordinal := 0,
    instance_topology_address := [0], device_name := "cpu:0:0@0" }

/-- Sample device on (cpu, instance 0), queue 1. -/
def sampleDeviceB : LocalDeviceAddress :=
  { system_device_class := "cpu", logical_device_class := "cpu",
    hal_driver_prefix := "local", instance_ordinal := 0, queue_ordinal := 1,
    instance_topology_address := [0], device_name := "cpu:0:1@0" }

/-- Sample device on (gpu, instance 1), queue 0. -/
def sampleDeviceC : LocalDeviceAddress :=
  { system_device_class := "gpu", logical_device_class := "gpu",
    hal_driver_prefix := "hip", instance_ordinal := 1, queue_ordinal := 0,
    instance_topology_address := [0], device_name := "gpu:1:0@0" }

/-- C4 counterexample: the claim's biconditional "a | b is non-empty iff
Pa == Pb" fails when one operand is the empty (default-constructed)
affinity.  For a = empty and b holding a device, the union is non-empty
(the empty affinity is the identity of the accumulation, as the variadic
selector's base case requires), yet the key sets differ (empty versus a
singleton). -/
theorem affinity_or_counterexample :
    ¬(((DeviceAffinity.empty.orA (DeviceAffinity.ofDevice sampleDeviceA)).nonEmpty = true)
        ↔ DeviceAffinity.empty.keySet = (DeviceAffinity.ofDevice sampleDeviceA).keySet) := by
  decide

theorem localScope_device_error_invalid (ds : List LocalDeviceAddress) (e : Err) :
    LocalScope.device ds = Except.error e → e = Err.invalidArgument := by
  induction ds with
  | nil => intro h; simp [LocalScope.device] at h
  | cons d rest ih =>
    intro h
    simp only [LocalScope.device] at h
    cases hr : LocalScope.device rest with
    | error e2 =>
      rw [hr] at h
      injection h with h1
      exact ih (h1 ▸ hr)
    | ok acc =>
      rw [hr] at h
      simp only [DeviceAffinity.orExcept] at h
      cases hacc : acc.device with
      | none => simp [hacc] at h
      | some d1 =>
        rw [hacc] at h
        simp only [DeviceAffinity.ofDevice] at h
        by_cases hk : d1.affinityKey = (LocalDeviceAddress.affinityKey d)
        · simp [hk] at h
        · simp [hk] at h
          exact h.symm

theorem orExcept_of_none (a : DeviceAffinity) (d0 : LocalDeviceAddress)
    (ha : a.device = none) :
    a.orExcept (DeviceAffinity.ofDevice d0)
      = Except.ok { device := some d0,
                    queue_affinity := a.queue_affinity ||| 2 ^ d0.queue_ordinal } := by
  simp [DeviceAffinity.orExcept, DeviceAffinity.orA, DeviceAffinity.ofDevice, ha]

theorem orExcept_of_matching (a : DeviceAffinity) (d1 d0 : LocalDeviceAddress)
    (ha : a.device = some d1) (hk : d1.affinityKey = d0.affinityKey) :
    a.orExcept (DeviceAffinity.ofDevice d0)
      = Except.ok { device := some d0,
                    queue_affinity := a.queue_affinity ||| 2 ^ d0.queue_ordinal } := by
  simp [DeviceAffinity.orExcept, DeviceAffinity.orA, DeviceAffinity.ofDevice, ha, hk]

theorem orExcept_of_mismatch (a : DeviceAffinity) (d1 d0 : LocalDeviceAddress)
    (ha : a.device = some d1) (hk : ¬d1.affinityKey = d0.affinityKey) :
    a.orExcept (DeviceAffinity.ofDevice d0) = Except.error Err.invalidArgument := by
  simp [DeviceAffinity.orExcept, DeviceAffinity.ofDevice, ha, hk]

theorem localScope_device_ok_key (ds : List LocalDeviceAddress) (acc : DeviceAffinity) :
    LocalScope.device ds = Except.ok acc →
      ∀ d ∈ ds, ∃ dd, acc.device = some dd ∧ d.affinityKey = dd.affinityKey := by
  induction ds generalizing acc with
  | nil => intro _ d hd; simp at hd
  | cons d0 rest ih =>
    intro h d hd
    simp only [LocalScope.device] at h
    cases hr : LocalScope.device rest with
    | error e2 => rw [hr] at h; exact absurd h (by simp)
    | ok acc' =>
      rw [hr] at h
      have h2 : acc'.orExcept (DeviceAffinity.ofDevice d0) = Except.ok acc := h
      cases hacc : acc'.device with
      | none =>
        rw [orExcept_of_none acc' d0 hacc] at h2
        injection h2 with h1
        rcases List.mem_cons.mp hd with hd0 | hrest
        · subst hd0
          exact ⟨d, by rw [← h1], rfl⟩
        · obtain ⟨dd, hdd, _⟩ := ih acc' hr d hrest
          rw [hacc] at hdd
          exact absurd hdd (by simp)
      | some d1 =>
        by_cases hk : d1.affinityKey = d0.affinityKey
        · rw [orExcept_of_matching acc' d1 d0 hacc hk] at h2
          injection h2 with h1
          rcases List.mem_cons.mp hd with hd0 | hrest
          · subst hd0
            exact ⟨d, by rw [← h1], rfl⟩
          · obtain ⟨dd, hdd, hkey⟩ := ih acc' hr d hrest
            rw [hacc] at hdd
            injection hdd with hdd1
            refine ⟨d0, by rw [← h1], ?_⟩
            rw [hkey, ← hdd1, hk]
        · rw [orExcept_of_mismatch acc' d1 d0 hacc hk] at h2
          exact absurd h2 (by simp)

/-- C4 amended: for affinities a and b that each hold a device (the claim
fails for empty affinities, which act as the identity of accumulation),
the union a | b is non-empty iff the devices' (system_class,
instance_ordinal) key sets agree, and when non-empty its queue mask is
the bitwise-or of the input masks.  Moreover the scope's variadic
device(...) selector, which folds its arguments with the OR after
resolving each via raw_device, throws InvalidArgument whenever the
resolved devices do not all share one (system_class, instance_ordinal)
key, i.e. whenever some accumulated union would be invalid. -/
theorem affinity_or_amended (a b : DeviceAffinity)
    (ha : a.nonEmpty = true) (hb : b.nonEmpty = true) :
    ((a.orA b).nonEmpty = true ↔ a.keySet = b.keySet)
  ∧ ((a.orA b).nonEmpty = true →
      (a.orA b).queue_affinity = a.queue_affinity ||| b.queue_affinity)
  ∧ (∀ ds : List LocalDeviceAddress,
      (∃ d1 ∈ ds, ∃ d2 ∈ ds, d1.affinityKey ≠ d2.affinityKey) →
      LocalScope.device ds = Except.error Err.invalidArgument) := by
  obtain ⟨da, hda⟩ := Option.isSome_iff_exists.mp ha
  obtain ⟨db, hdb⟩ := Option.isSome_iff_exists.mp hb
  refine ⟨?_, ?_, ?_⟩
  · by_cases hk : da.affinityKey = db.affinityKey
    · simp [DeviceAffinity.orA, DeviceAffinity.nonEmpty, DeviceAffinity.keySet,
        hda, hdb, hk]
    · simp [DeviceAffinity.orA, DeviceAffinity.nonEmpty, DeviceAffinity.keySet,
        DeviceAffinity.empty, hda, hdb, hk]
  · intro hne
    by_cases hk : da.affinityKey = db.affinityKey
    · simp [DeviceAffinity.orA, hda, hdb, hk]
    · simp [DeviceAffinity.orA, DeviceAffinity.nonEmpty, DeviceAffinity.empty,
        hda, hdb, hk] at hne
  · rintro ds ⟨d1, hd1, d2, hd2, hne⟩
    cases hres : LocalScope.device ds with
    | error e =>
      rw [localScope_device_error_invalid ds e hres]
    | ok acc =>
      exfalso
      obtain ⟨dd1, hdd1, hk1⟩ := localScope_device_ok_key ds acc hres d1 hd1
      obtain ⟨dd2, hdd2, hk2⟩ := localScope_device_ok_key ds acc hres d2 hd2
      rw [hdd1] at hdd2
      injection hdd2 with hdd
      apply hne
      rw [hk1, hk2, hdd]

theorem affinity_or_amended_witness :
    (((DeviceAffinity.ofDevice sampleDeviceA).orA
        (DeviceAffinity.ofDevice sampleDeviceB)).nonEmpty = true
      ↔ (DeviceAffinity.ofDevice sampleDeviceA).keySet
          = (DeviceAffinity.ofDevice sampleDeviceB).keySet)
  ∧ LocalScope.device [sampleDeviceA, sampleDeviceC] = Except.error Err.invalidArgument := by
  have h := affinity_or_amended (DeviceAffinity.ofDevice sampleDeviceA)
    (DeviceAffinity.ofDevice sampleDeviceB) (by decide) (by decide)
  refine ⟨h.1, ?_⟩
  apply h.2.2 [sampleDeviceA, sampleDeviceC]
  refine ⟨sampleDeviceA, by simp, sampleDeviceC, by simp, ?_⟩
  decide

/-- ProgramInvocationModel (src/shortfin/src/shortfin/local/program.h
lines 29-38): coarse-fences, unannotated, or unknown/simple. -/
inductive ProgramInvocationModel where
  | COARSE_FENCES
  | NONE
  | UNKNOWN
deriving DecidableEq

/-- ProgramResourceBarrier (program_interfaces.h, per the spec): the
concurrency barrier applied when marshaling an argument. -/
inductive ProgramResourceBarrier where
  | none
  | read
  | write
deriving DecidableEq

/-- A ProgramInvocationMarshalable as it matters to the invocation: the
VM ref it marshals (a tag) and the affinity of the device backing it. -/
structure Marshalable where
  ref : Nat
  affinity : DeviceAffinity
deriving DecidableEq

/-- shortfin::local::ProgramInvocation state (program.h lines 133-179):
the scheduled_ flag, the trailing VM arg list (refs as tags), the
accumulated device_selection_, and the coarse-signal fields signal_sem_
(a semaphore handle, nullptr modelled as none) and signal_timepoint_,
plus the invocation model held in the Params union. -/
structure ProgramInvocation where
  scheduled : Bool
  args : List Nat
  device_selection : DeviceAffinity
  signal_sem : Option Nat
  signal_timepoint : Nat
  invocation_model : ProgramInvocationModel
deriving DecidableEq

/-- ProgramInvocation::New for a function with the given invocation
model: the in-class initializers of program.h lines 171-178 leave
scheduled_ = false, signal_sem_ = nullptr, signal_timepoint_ = 0, an
empty arg list and a default (empty) device selection. -/
def ProgramInvocation.New (model : ProgramInvocationModel) : ProgramInvocation :=
  { scheduled := false, args := [], device_selection := DeviceAffinity.empty,
    signal_sem := none, signal_timepoint := 0, invocation_model := model }

/-- ProgramInvocation::coarse_signal (program.h lines 127-129): returns
the pair (signal_sem_, signal_timepoint_); a null semaphore means coarse
signaling is unavailable. -/
def ProgramInvocation.coarse_signal (inv : ProgramInvocation) : Option Nat × Nat :=
  (inv.signal_sem, inv.signal_timepoint)

/-- Modelled from the spec: ProgramInvocation::CheckNotScheduled
(program.cc is not under src/): any user operation on a SCHEDULED
invocation fails with LogicError. -/
def ProgramInvocation.CheckNotScheduled (inv : ProgramInvocation) : Except Err Unit :=
  if inv.scheduled then Except.error Err.logicError else Except.ok ()

/-- Modelled from the spec: ProgramInvocation::DeviceSelect (program.cc
is not under src/): after CheckNotScheduled, unions the affinity with the
current selection, failing with InvalidArgument if the union would
collapse (different system_class/instance_ordinal).  On error the stored
invocation is not modified (the failed call returns no new state). -/
def ProgramInvocation.DeviceSelect (inv : ProgramInvocation) (affinity : DeviceAffinity) :
    Except Err ProgramInvocation :=
  match inv.CheckNotScheduled with
  | Except.error e => Except.error e
  | Except.ok _ =>
    match inv.device_selection.orExcept affinity with
    | Except.error e => Except.error e
    | Except.ok sel => Except.ok { inv with device_selection := sel }

/-- Modelled from the spec: the marshalable overload of
ProgramInvocation::AddArg (program.cc is not under src/): after
CheckNotScheduled, Marshal hands back a VM ref to append; a barrier
other than NONE implicates the marshalable's device via DeviceSelect.
On error the stored invocation is not modified. -/
def ProgramInvocation.AddArg (inv : ProgramInvocation) (m : Marshalable)
    (barrier : ProgramResourceBarrier) : Except Err ProgramInvocation :=
  match inv.CheckNotScheduled with
  | Except.error e => Except.error e
  | Except.ok _ =>
    match (if barrier = ProgramResourceBarrier.none
           then Except.ok inv else inv.DeviceSelect m.affinity) with
    | Except.error e => Except.error e
    | Except.ok inv2 => Except.ok { inv2 with args := inv2.args ++ [m.ref] }

/-- Modelled from the spec: the ref overload of ProgramInvocation::AddArg
(program.cc is not under src/): after CheckNotScheduled, appends the ref
unchanged with no device or barrier effect. -/
def ProgramInvocation.AddArgRef (inv : ProgramInvocation) (r : Nat) :
    Except Err ProgramInvocation :=
  match inv.CheckNotScheduled with
  | Except.error e => Except.error e
  | Except.ok _ => Except.ok { inv with args := inv.args ++ [r] }

/-- Modelled from the spec: ProgramInvocation::Invoke (program.cc is not
under src/): asserts the invocation is not yet scheduled, finalizes the
calling convention (for COARSE_FENCES a non-empty device selection is
required and a signal semaphore is allocated with timepoint one past the
primary queue's tip; NONE and UNKNOWN pass arguments through), and marks
the invocation SCHEDULED.  sem and queue_tip stand for the allocated
semaphore handle and the tip of the selected queue's timeline. -/
def ProgramInvocation.Invoke (inv : ProgramInvocation) (sem queue_tip : Nat) :
    Except Err ProgramInvocation :=
  match inv.CheckNotScheduled with
  | Except.error e => Except.error e
  | Except.ok _ =>
    match inv.invocation_model with
    | ProgramInvocationModel.COARSE_FENCES =>
      if inv.device_selection.nonEmpty then
        Except.ok { inv with scheduled := true, signal_sem := some sem,
                             signal_timepoint := queue_tip + 1 }
      else Except.error Err.invalidArgument
    | _ => Except.ok { inv with scheduled := true }

theorem invoke_scheduled (inv inv' : ProgramInvocation) (sem queue_tip : Nat)
    (h : inv.Invoke sem queue_tip = Except.ok inv') : inv'.scheduled = true := by
  by_cases hs : inv.scheduled
  · simp [ProgramInvocation.Invoke, ProgramInvocation.CheckNotScheduled, hs] at h
  · simp only [ProgramInvocation.Invoke, ProgramInvocation.CheckNotScheduled, hs,
      if_neg hs] at h
    cases hm : inv.invocation_model with
    | COARSE_FENCES =>
      rw [hm] at h
      by_cases hne : inv.device_selection.nonEmpty
      · rw [if_pos hne] at h
        injection h with h1
        rw [← h1]
      · simp [hne] at h
    | NONE =>
      rw [hm] at h
      injection h with h1
      rw [← h1]
    | UNKNOWN =>
      rw [hm] at h
      injection h with h1
      rw [← h1]

/-- C3: one-shot scheduling.  Once Invoke has returned successfully (the
invocation is SCHEDULED), every subsequent AddArg — marshalable or ref
overload — and every DeviceSelect fails with LogicError via
CheckNotScheduled; the failed calls yield no updated invocation, so the
argument list and device selection are left unchanged. -/
theorem scheduled_invocation_rejects_mutation (inv inv' : ProgramInvocation)
    (sem queue_tip : Nat) (h : inv.Invoke sem queue_tip = Except.ok inv') :
    (∀ m barrier, inv'.AddArg m barrier = Except.error Err.logicError)
  ∧ (∀ r, inv'.AddArgRef r = Except.error Err.logicError)
  ∧ (∀ affinity, inv'.DeviceSelect affinity = Except.error Err.logicError) := by
  have hs : inv'.scheduled = true := invoke_scheduled inv inv' sem queue_tip h
  refine ⟨?_, ?_, ?_⟩
  · intro m barrier
    simp [ProgramInvocation.AddArg, ProgramInvocation.CheckNotScheduled, hs]
  · intro r
    simp [ProgramInvocation.AddArgRef, ProgramInvocation.CheckNotScheduled, hs]
  · intro affinity
    simp [ProgramInvocation.DeviceSelect, ProgramInvocation.CheckNotScheduled, hs]

/-- A scheduled sample invocation: a NONE-model invocation after a
successful Invoke. -/
def sampleScheduledInvocation : ProgramInvocation :=
  { ProgramInvocation.New ProgramInvocationModel.NONE with scheduled := true }

theorem scheduled_invocation_rejects_mutation_witness :
    sampleScheduledInvocation.AddArg
        { ref := 0, affinity := DeviceAffinity.ofDevice sampleDeviceA }
        ProgramResourceBarrier.read
      = Except.error Err.logicError
  ∧ sampleScheduledInvocation.AddArgRef 3 = Except.error Err.logicError
  ∧ sampleScheduledInvocation.DeviceSelect DeviceAffinity.empty
      = Except.error Err.logicError := by
  have h := scheduled_invocation_rejects_mutation
    (ProgramInvocation.New ProgramInvocationModel.NONE) sampleScheduledInvocation 0 0
    (by rfl)
  exact ⟨h.1 { ref := 0, affinity := DeviceAffinity.ofDevice sampleDeviceA }
      ProgramResourceBarrier.read,
    h.2.1 3, h.2.2 DeviceAffinity.empty⟩

/-- A pre-scheduling builder operation on an invocation: the user-facing
mutations available between New and Invoke. -/
inductive BuildOp where
  | addMarsh (m : Marshalable) (barrier : ProgramResourceBarrier)
  | addRef (r : Nat)
  | devSel (affinity : DeviceAffinity)
deriving DecidableEq

/-- Applying one builder operation; a failed call (LogicError or
InvalidArgument) leaves the invocation unchanged, as the C++ exceptions
do. -/
def applyBuild (inv : ProgramInvocation) : BuildOp → ProgramInvocation
  | BuildOp.addMarsh m barrier =>
    match inv.AddArg m barrier with
    | Except.ok inv2 => inv2
    | Except.error _ => inv
  | BuildOp.addRef r =>
    match inv.AddArgRef r with
    | Except.ok inv2 => inv2
    | Except.error _ => inv
  | BuildOp.devSel affinity =>
    match inv.DeviceSelect affinity with
    | Except.ok inv2 => inv2
    | Except.error _ => inv

/-- A sequence of builder operations applied in order. -/
def buildAll (inv : ProgramInvocation) (ops : List BuildOp) : ProgramInvocation :=
  ops.foldl applyBuild inv

theorem deviceSelect_signal_fields (inv inv2 : ProgramInvocation)
    (affinity : DeviceAffinity) (h : inv.DeviceSelect affinity = Except.ok inv2) :
    inv2.signal_sem = inv.signal_sem ∧ inv2.signal_timepoint = inv.signal_timepoint := by
  by_cases hs : inv.scheduled
  · simp [ProgramInvocation.DeviceSelect, ProgramInvocation.CheckNotScheduled, hs] at h
  · simp only [ProgramInvocation.DeviceSelect, ProgramInvocation.CheckNotScheduled,
      if_neg hs] at h
    cases hor : inv.device_selection.orExcept affinity with
    | error e => rw [hor] at h; exact absurd h (by simp)
    | ok sel =>
      rw [hor] at h
      injection h with h1
      rw [← h1]
      exact ⟨rfl, rfl⟩

theorem applyBuild_signal_fields (inv : ProgramInvocation) (op : BuildOp) :
    (applyBuild inv op).signal_sem = inv.signal_sem
  ∧ (applyBuild inv op).signal_timepoint = inv.signal_timepoint := by
  cases op with
  | addMarsh m barrier =>
    simp only [applyBuild]
    cases ha : inv.AddArg m barrier with
    | error e => exact ⟨rfl, rfl⟩
    | ok inv2 =>
      by_cases hs : inv.scheduled
      · simp [ProgramInvocation.AddArg, ProgramInvocation.CheckNotScheduled, hs] at ha
      · simp only [ProgramInvocation.AddArg, ProgramInvocation.CheckNotScheduled,
          if_neg hs] at ha
        by_cases hb : barrier = ProgramResourceBarrier.none
        · rw [if_pos hb] at ha
          injection ha with h1
          rw [← h1]
          exact ⟨rfl, rfl⟩
        · rw [if_neg hb] at ha
          cases hds : inv.DeviceSelect m.affinity with
          | error e => rw [hds] at ha; exact absurd ha (by simp)
          | ok inv3 =>
            rw [hds] at ha
            injection ha with h1
            obtain ⟨hf1, hf2⟩ := deviceSelect_signal_fields inv inv3 m.affinity hds
            rw [← h1]
            exact ⟨hf1, hf2⟩
  | addRef r =>
    simp only [applyBuild]
    cases ha : inv.AddArgRef r with
    | error e => exact ⟨rfl, rfl⟩
    | ok inv2 =>
      by_cases hs : inv.scheduled
      · simp [ProgramInvocation.AddArgRef, ProgramInvocation.CheckNotScheduled, hs] at ha
      · simp only [ProgramInvocation.AddArgRef, ProgramInvocation.CheckNotScheduled,
          if_neg hs] at ha
        injection ha with h1
        rw [← h1]
        exact ⟨rfl, rfl⟩
  | devSel affinity =>
    simp only [applyBuild]
    cases ha : inv.DeviceSelect affinity with
    | error e => exact ⟨rfl, rfl⟩
    | ok inv2 => exact deviceSelect_signal_fields inv inv2 affinity ha

/-- C9: coarse signaling is unavailable before Invoke.  For an invocation
that has been created but not yet scheduled — i.e. obtained from New and
any sequence of AddArg/DeviceSelect builder calls, successful or failed —
coarse_signal() returns a null semaphore paired with timepoint 0: the
fields are initialized to nullptr and 0 at construction and no
pre-scheduling operation assigns them. -/
theorem coarse_signal_prescheduled (model : ProgramInvocationModel) (ops : List BuildOp) :
    (buildAll (ProgramInvocation.New model) ops).coarse_signal = (none, 0) := by
  suffices h : ∀ (ops : List BuildOp) (inv : ProgramInvocation),
      (buildAll inv ops).signal_sem = inv.signal_sem
    ∧ (buildAll inv ops).signal_timepoint = inv.signal_timepoint by
    obtain ⟨h1, h2⟩ := h ops (ProgramInvocation.New model)
    simp only [ProgramInvocation.coarse_signal, h1, h2]
    rfl
  intro ops
  induction ops with
  | nil => intro inv; exact ⟨rfl, rfl⟩
  | cons op ops ih =>
    intro inv
    have hstep := applyBuild_signal_fields inv op
    have hrest := ih (applyBuild inv op)
    have hb : buildAll inv (op :: ops) = buildAll (applyBuild inv op) ops := rfl
    rw [hb]
    exact ⟨hrest.1.trans hstep.1, hrest.2.trans hstep.2⟩
